import Mathlib

/-!
A shallow embedding of the core text-processing and answer-generation logic of
the book-rag-chatbot repository (src/conversation_manager.py and
src/doc_processor.py), together with theorems settling the frozen claims about
that code.  Strings are modelled as `List Char`; Python integers as `Int`/`Nat`.
External collaborators (the generation model, the embedding provider, the NLTK
sentence tokenizer) are passed in as explicit oracles, so every definition is
executable on concrete inputs.
-/

/-- Python whitespace test used by `str.strip()` (space, tab, carriage return,
newline — the characters that actually occur in this code base). -/
def is_space (c : Char) : Bool := c.isWhitespace

/-- Python `s.strip()`: remove leading and trailing whitespace. -/
def py_strip (s : List Char) : List Char :=
  (((s.dropWhile is_space).reverse).dropWhile is_space).reverse

/-- Python `s.rsplit(".", 1)[0]`: everything strictly before the last `'.'`
of `s`, or `s` itself when `s` contains no `'.'`. -/
def rsplit_dot_head : List Char → List Char
  | [] => []
  | c :: cs =>
    if ('.' : Char) ∈ cs then c :: rsplit_dot_head cs
    else if c = '.' then [] else c :: rsplit_dot_head cs

/-- Python slicing `s[:k]` for an arbitrary (possibly negative) integer bound:
a negative bound counts from the end of the string. -/
def py_slice_to (s : List Char) (k : Int) : List Char :=
  if 0 ≤ k then s.take k.toNat else s.take ((s.length : Int) + k).toNat

/-- conversation_manager.py lines 12-18, `ConversationManager._truncate_text`:
return `text` unchanged when it fits, otherwise `text[:max_length].rsplit(".", 1)[0] + "."`.
The bound is an `Int` because `_build_context` can call this with a negative
remaining budget. -/
def truncate_text (text : List Char) (max_length : Int) : List Char :=
  if (text.length : Int) ≤ max_length then text
  else rsplit_dot_head (py_slice_to text max_length) ++ ['.']

lemma rsplit_dot_head_length_le (s : List Char) : (rsplit_dot_head s).length ≤ s.length := by
  induction s with
  | nil => simp [rsplit_dot_head]
  | cons c cs ih =>
    simp only [rsplit_dot_head]
    split
    · simpa using Nat.succ_le_succ ih
    · split
      · simp
      · simpa using Nat.succ_le_succ ih

lemma rsplit_dot_head_of_not_mem (s : List Char) (h : ('.' : Char) ∉ s) :
    rsplit_dot_head s = s := by
  induction s with
  | nil => rfl
  | cons c cs ih =>
    simp only [List.mem_cons, not_or] at h
    have hc : ¬ (c = '.') := fun hh => h.1 hh.symm
    simp only [rsplit_dot_head, if_neg h.2, if_neg hc]
    rw [ih h.2]

lemma rsplit_dot_head_append_dot (s : List Char) (h : ('.' : Char) ∈ s) :
    ∃ u, (rsplit_dot_head s ++ ['.']) ++ u = s := by
  induction s with
  | nil => simp at h
  | cons c cs ih =>
    by_cases hcs : ('.' : Char) ∈ cs
    · obtain ⟨u, hu⟩ := ih hcs
      refine ⟨u, ?_⟩
      simp only [rsplit_dot_head, if_pos hcs, List.cons_append]
      rw [hu]
    · have hc : c = '.' := by
        rcases List.mem_cons.mp h with h1 | h1
        · exact h1.symm
        · exact absurd h1 hcs
      refine ⟨cs, ?_⟩
      simp [rsplit_dot_head, hcs, hc]

lemma py_slice_to_nat (s : List Char) (n : Nat) :
    py_slice_to s (n : Int) = s.take n := by
  simp [py_slice_to]

/-- Claim C1 (counterexample): on a periodless input, the fallback "hard cut
plus terminal period" produces `n + 1` characters, so `_truncate_text` does not
always return a string of length at most `n`. -/
theorem C1_counterexample :
    truncate_text (("abcde").toList) 3 = ("abc.").toList ∧
    ¬ ((truncate_text (("abcde").toList) 3).length ≤ 3) := by
  decide

/-- Claim C1 (amended): `_truncate_text(text, n)` returns `text` unchanged when
`len(text) ≤ n`; when `len(text) > n` and a period occurs within the first `n`
characters it returns the prefix of `text` ending at the last such period (a
string of length at most `n` ending in `'.'`); when no period occurs in the
first `n` characters it returns the first `n` characters followed by a terminal
period, a string of length `n + 1`. -/
theorem C1_truncate_text_amended (text : List Char) (n : Nat) :
    (text.length ≤ n → truncate_text text (n : Int) = text)
  ∧ (n < text.length → ('.' : Char) ∈ text.take n →
      (truncate_text text (n : Int)).length ≤ n ∧
      (∃ u, truncate_text text (n : Int) ++ u = text) ∧
      (truncate_text text (n : Int)).getLast? = some '.')
  ∧ (n < text.length → ('.' : Char) ∉ text.take n →
      truncate_text text (n : Int) = text.take n ++ ['.']) := by
  refine ⟨?_, ?_, ?_⟩
  · intro h
    simp [truncate_text, Int.ofNat_le.mpr h]
  · intro hlt hmem
    have hcond : ¬ ((text.length : Int) ≤ (n : Int)) := by
      exact_mod_cast Nat.not_le.mpr hlt
    have hres : truncate_text text (n : Int)
        = rsplit_dot_head (text.take n) ++ ['.'] := by
      simp [truncate_text, hcond, py_slice_to_nat]
    obtain ⟨u, hu⟩ := rsplit_dot_head_append_dot (text.take n) hmem
    have hlen : (rsplit_dot_head (text.take n) ++ ['.']).length ≤ n := by
      have h1 : (rsplit_dot_head (text.take n) ++ ['.']).length ≤ (text.take n).length := by
        have h0 := congrArg List.length hu
        rw [List.length_append] at h0
        omega
      have h2 : (text.take n).length ≤ n := by simp
      omega
    refine ⟨by rw [hres]; exact hlen, ⟨u ++ text.drop n, ?_⟩, ?_⟩
    · rw [hres, ← List.append_assoc, hu, List.take_append_drop]
    · rw [hres]
      exact List.getLast?_concat _
  · intro hlt hmem
    have hcond : ¬ ((text.length : Int) ≤ (n : Int)) := by
      exact_mod_cast Nat.not_le.mpr hlt
    simp [truncate_text, hcond, py_slice_to_nat, rsplit_dot_head_of_not_mem _ hmem]

/-- Witness for C1: the amended theorem applied at the concrete input
`"ab.cd"` with bound `4` (the sentence-boundary case). -/
theorem C1_witness :
    (truncate_text (("ab.cd").toList) ((4 : Nat) : Int)).length ≤ 4 ∧
    (∃ u, truncate_text (("ab.cd").toList) ((4 : Nat) : Int) ++ u = ("ab.cd").toList) ∧
    (truncate_text (("ab.cd").toList) ((4 : Nat) : Int)).getLast? = some '.' :=
  (C1_truncate_text_amended (("ab.cd").toList) 4).2.1 (by decide) (by decide)

/-- A retrieved chunk as consumed by `ConversationManager._build_context`
(a dict with a `"text"` field; the metadata plays no role there). -/
structure Retrieved where
  text : List Char
deriving DecidableEq

/-- The blank-line separator `"\n\n"` prepended before every chunk. -/
def ctx_sep : List Char := ['\n', '\n']

/-- conversation_manager.py lines 23-30, the accumulation loop of
`_build_context`: append `"\n\n" + chunk_text` while it fits; the first chunk
that would overflow is truncated to the remaining budget
`max_length - len(context) - 2` and the loop breaks. -/
def build_context_loop (max_length : Int) : List Char → List (List Char) → List Char
  | context, [] => context
  | context, chunk_text :: rest =>
    if max_length < (context.length : Int) + chunk_text.length + 2 then
      context ++ ctx_sep ++ truncate_text chunk_text (max_length - (context.length : Int) - 2)
    else build_context_loop max_length (context ++ ctx_sep ++ chunk_text) rest

/-- conversation_manager.py lines 20-32, `ConversationManager._build_context`:
run the loop from an empty context and strip the result. -/
def build_context (retrieved_chunks : List Retrieved) (max_length : Int) : List Char :=
  py_strip (build_context_loop max_length [] (retrieved_chunks.map Retrieved.text))

/-- The length of the longest chunk text in a retrieved list. -/
def max_text_length (l : List Retrieved) : Nat :=
  l.foldr (fun c m => max c.text.length m) 0

lemma length_dropWhile_le (p : Char → Bool) (l : List Char) :
    (l.dropWhile p).length ≤ l.length := by
  induction l with
  | nil => simp
  | cons c cs ih =>
    rw [List.dropWhile_cons]
    split
    · exact Nat.le_succ_of_le ih
    · simp

lemma py_strip_length_le (s : List Char) : (py_strip s).length ≤ s.length := by
  unfold py_strip
  rw [List.length_reverse]
  calc ((s.dropWhile is_space).reverse.dropWhile is_space).length
      ≤ (s.dropWhile is_space).reverse.length := length_dropWhile_le _ _
    _ = (s.dropWhile is_space).length := List.length_reverse _
    _ ≤ s.length := length_dropWhile_le _ _

lemma truncate_text_length_of_nonneg (t : List Char) (r : Int) (h : 0 ≤ r) :
    ((truncate_text t r).length : Int) ≤ r + 1 := by
  unfold truncate_text
  split
  · omega
  · rw [List.length_append]
    have h1 : (rsplit_dot_head (py_slice_to t r)).length ≤ (py_slice_to t r).length :=
      rsplit_dot_head_length_le _
    have h2 : (py_slice_to t r).length ≤ r.toNat := by
      unfold py_slice_to
      rw [if_pos h]
      simp [List.length_take]
    have h3 : (r.toNat : Int) = r := Int.toNat_of_nonneg h
    simp only [List.length_singleton]
    omega

lemma truncate_text_length_of_neg (t : List Char) (r : Int) (h : r < 0) :
    ((truncate_text t r).length : Int) ≤ max ((t.length : Int) + r) 0 + 1 := by
  unfold truncate_text
  have hc : ¬ ((t.length : Int) ≤ r) := by
    have : (0 : Int) ≤ (t.length : Int) := Int.ofNat_nonneg _
    omega
  rw [if_neg hc]
  rw [List.length_append]
  have h1 : (rsplit_dot_head (py_slice_to t r)).length ≤ (py_slice_to t r).length :=
    rsplit_dot_head_length_le _
  have h2 : (py_slice_to t r).length ≤ ((t.length : Int) + r).toNat := by
    unfold py_slice_to
    rw [if_neg (by omega)]
    simp [List.length_take]
  have h3 : (((t.length : Int) + r).toNat : Int) = max ((t.length : Int) + r) 0 :=
    Int.toNat_eq_max _
  simp only [List.length_singleton]
  omega

lemma build_context_loop_length_le (L : Int) (M : Nat) :
    ∀ (ts : List (List Char)) (ctx : List Char),
      (∀ t ∈ ts, t.length ≤ M) → (ctx.length : Int) ≤ max L 0 →
      ((build_context_loop L ctx ts).length : Int) ≤ max L 0 + M + 3 := by
  intro ts
  induction ts with
  | nil =>
    intro ctx _ hctx
    simp only [build_context_loop]
    omega
  | cons t rest ih =>
    intro ctx hmem hctx
    simp only [build_context_loop]
    split
    · -- break: the chunk overflows, truncate to the remaining budget
      rename_i hbr
      rw [List.length_append, List.length_append]
      have hsep : (ctx_sep.length : Int) = 2 := by decide
      set r : Int := L - (ctx.length : Int) - 2 with hr
      rcases le_or_lt 0 r with hr0 | hr0
      · have hw := truncate_text_length_of_nonneg t r hr0
        have hL : 0 ≤ L := by omega
        have : max L 0 = L := max_eq_left hL
        push_cast
        omega
      · have hw := truncate_text_length_of_neg t r hr0
        have htM : t.length ≤ M := hmem t (by simp)
        rcases le_or_lt ((t.length : Int) + r) 0 with hx | hx
        · rw [max_eq_right hx] at hw
          push_cast
          omega
        · rw [max_eq_left (le_of_lt hx)] at hw
          push_cast
          omega
    · -- no break: the chunk fits, keep accumulating
      rename_i hfit
      apply ih
      · intro u hu
        exact hmem u (by simp [hu])
      · rw [List.length_append, List.length_append]
        have hsep : (ctx_sep.length : Int) = 2 := by decide
        push_cast
        omega

lemma mem_le_max_text_length (l : List Retrieved) :
    ∀ t ∈ l.map Retrieved.text, t.length ≤ max_text_length l := by
  induction l with
  | nil => simp
  | cons c cs ih =>
    intro t ht
    rcases List.mem_cons.mp ht with h | h
    · subst h
      simp only [max_text_length, List.foldr_cons]
      exact le_max_left _ _
    · have := ih t h
      simp only [max_text_length, List.foldr_cons]
      exact le_trans this (le_max_right _ _)


lemma bcl_nil (L : Int) (ctx : List Char) : build_context_loop L ctx [] = ctx := rfl

lemma bcl_cons (L : Int) (ctx t : List Char) (rest : List (List Char)) :
    build_context_loop L ctx (t :: rest)
      = if L < (ctx.length : Int) + t.length + 2 then
          ctx ++ ctx_sep ++ truncate_text t (L - (ctx.length : Int) - 2)
        else build_context_loop L (ctx ++ ctx_sep ++ t) rest := rfl


lemma truncate_eval_pos :
    truncate_text (List.replicate 500 'b') 196 = List.replicate 196 'b' ++ ['.'] := by
  unfold truncate_text
  rw [if_neg (by rw [List.length_replicate]; norm_num)]
  have h1 : py_slice_to (List.replicate 500 'b') 196 = List.replicate 196 'b' := by
    unfold py_slice_to
    rw [if_pos (by norm_num), show Int.toNat 196 = 196 from rfl, List.take_replicate,
      show (min 196 500 : Nat) = 196 from by decide]
  rw [h1, rsplit_dot_head_of_not_mem _ (by simp only [List.mem_replicate]; decide)]

lemma truncate_eval_neg :
    truncate_text (List.replicate 500 'b') (-2) = List.replicate 498 'b' ++ ['.'] := by
  unfold truncate_text
  rw [if_neg (by rw [List.length_replicate]; norm_num)]
  have h1 : py_slice_to (List.replicate 500 'b') (-2) = List.replicate 498 'b' := by
    unfold py_slice_to
    rw [if_neg (by norm_num), List.length_replicate,
      show Int.toNat ((500 : Nat) + (-2 : Int)) = 498 from rfl, List.take_replicate,
      show (min 498 500 : Nat) = 498 from by decide]
  rw [h1, rsplit_dot_head_of_not_mem _ (by simp only [List.mem_replicate]; decide)]

lemma py_strip_sep_append (l : List Char) : py_strip (ctx_sep ++ l) = py_strip l := by
  have hnl : is_space '\n' = true := by decide
  simp only [ctx_sep, py_strip, List.cons_append, List.nil_append,
    List.dropWhile_cons_of_pos hnl]

lemma py_strip_eq_self_of_ends (c d : Char) (mid : List Char)
    (hc : is_space c = false) (hd : is_space d = false) :
    py_strip (c :: (mid ++ [d])) = c :: (mid ++ [d]) := by
  unfold py_strip
  rw [List.dropWhile_cons_of_neg (by simp [hc])]
  have hrev : (c :: (mid ++ [d])).reverse = d :: (c :: mid).reverse := by
    simp
  rw [hrev, List.dropWhile_cons_of_neg (by simp [hd]), ← hrev, List.reverse_reverse]

lemma build_context_eval_a :
    build_context
        [⟨List.replicate 1800 'a'⟩, ⟨List.replicate 500 'b'⟩, ⟨List.replicate 100 'c'⟩] 2000
      = List.replicate 1800 'a' ++ ctx_sep ++ List.replicate 196 'b' ++ ['.'] := by
  have hmap : ([⟨List.replicate 1800 'a'⟩, ⟨List.replicate 500 'b'⟩,
      ⟨List.replicate 100 'c'⟩] : List Retrieved).map Retrieved.text
      = [List.replicate 1800 'a', List.replicate 500 'b', List.replicate 100 'c'] := rfl
  unfold build_context
  rw [hmap, bcl_cons,
    if_neg (by
      simp only [List.length_nil, List.length_replicate]
      norm_num)]
  rw [bcl_cons,
    if_pos (by
      simp only [List.nil_append, List.length_append, List.length_replicate, ctx_sep,
        List.length_cons, List.length_nil]
      norm_num)]
  have harg : ((2000 : Int) - ((((([] : List Char) ++ ctx_sep ++ List.replicate 1800 'a').length) : Int)) - 2)
      = (196 : Int) := by
    simp only [List.nil_append, List.length_append, List.length_replicate, ctx_sep,
      List.length_cons, List.length_nil]
    norm_num
  rw [harg, truncate_eval_pos]
  have hshape : (([] : List Char) ++ ctx_sep ++ List.replicate 1800 'a') ++ ctx_sep ++
      (List.replicate 196 'b' ++ ['.'])
      = ctx_sep ++ (List.replicate 1800 'a' ++ ctx_sep ++ List.replicate 196 'b' ++ ['.']) := by
    simp only [List.nil_append, List.append_assoc]
  rw [hshape, py_strip_sep_append]
  have hx : List.replicate 1800 'a' ++ ctx_sep ++ List.replicate 196 'b' ++ ['.']
      = 'a' :: ((List.replicate 1799 'a' ++ ctx_sep ++ List.replicate 196 'b') ++ ['.']) := by
    rw [show (1800 : Nat) = 1799 + 1 from rfl, List.replicate_succ]
    simp only [List.cons_append, List.append_assoc]
  rw [hx, py_strip_eq_self_of_ends 'a' '.' _ (by decide) (by decide)]

lemma build_context_eval_b :
    build_context [⟨List.replicate 1998 'a'⟩, ⟨List.replicate 500 'b'⟩] 2000
      = List.replicate 1998 'a' ++ ctx_sep ++ List.replicate 498 'b' ++ ['.'] := by
  have hmap : ([⟨List.replicate 1998 'a'⟩, ⟨List.replicate 500 'b'⟩] :
      List Retrieved).map Retrieved.text
      = [List.replicate 1998 'a', List.replicate 500 'b'] := rfl
  unfold build_context
  rw [hmap, bcl_cons,
    if_neg (by
      simp only [List.length_nil, List.length_replicate]
      norm_num)]
  rw [bcl_cons,
    if_pos (by
      simp only [List.nil_append, List.length_append, List.length_replicate, ctx_sep,
        List.length_cons, List.length_nil]
      norm_num)]
  have harg : ((2000 : Int) - ((((([] : List Char) ++ ctx_sep ++ List.replicate 1998 'a').length) : Int)) - 2)
      = (-2 : Int) := by
    simp only [List.nil_append, List.length_append, List.length_replicate, ctx_sep,
      List.length_cons, List.length_nil]
    norm_num
  rw [harg, truncate_eval_neg]
  have hshape : (([] : List Char) ++ ctx_sep ++ List.replicate 1998 'a') ++ ctx_sep ++
      (List.replicate 498 'b' ++ ['.'])
      = ctx_sep ++ (List.replicate 1998 'a' ++ ctx_sep ++ List.replicate 498 'b' ++ ['.']) := by
    simp only [List.nil_append, List.append_assoc]
  rw [hshape, py_strip_sep_append]
  have hx : List.replicate 1998 'a' ++ ctx_sep ++ List.replicate 498 'b' ++ ['.']
      = 'a' :: ((List.replicate 1997 'a' ++ ctx_sep ++ List.replicate 498 'b') ++ ['.']) := by
    rw [show (1998 : Nat) = 1997 + 1 from rfl, List.replicate_succ]
    simp only [List.cons_append, List.append_assoc]
  rw [hx, py_strip_eq_self_of_ends 'a' '.' _ (by decide) (by decide)]

/-- Claim C2 (counterexample): with chunks of lengths `[1800, 500, 100]` and
`max_length = 2000` the truncated second chunk does appear in the output
(refuting "only the first chunk appears and no text of the second is present"),
and with chunks of lengths `[1998, 500]` the negative remaining budget makes
the negative slice semantics of Python keep almost all of the second chunk, so the output has
length 2499, far more than `max_length` plus the two-character separator
overhead. -/
theorem C2_counterexample :
    ('b' ∈ build_context
        [⟨List.replicate 1800 'a'⟩, ⟨List.replicate 500 'b'⟩, ⟨List.replicate 100 'c'⟩] 2000)
  ∧ ¬ ((build_context [⟨List.replicate 1998 'a'⟩, ⟨List.replicate 500 'b'⟩] 2000).length ≤ 2002) := by
  constructor
  · rw [build_context_eval_a]
    exact List.mem_append_left _ (List.mem_append_right _
      (List.mem_replicate.mpr (by norm_num)))
  · rw [build_context_eval_b]
    simp only [List.length_append, List.length_replicate, ctx_sep,
      List.length_cons, List.length_nil]
    norm_num

/-- Claim C2 (amended): with three chunks of lengths `[1800, 500, 100]` and
`max_length = 2000`, `_build_context` returns the first chunk in full, the
blank-line separator, and the second chunk truncated to the 196-character
remaining budget plus a terminal period; the third chunk is dropped.  In
general the output length is bounded by `max(max_length, 0)` plus the longest
chunk length plus 3; the tighter bound `max_length + separator overhead` can be
exceeded when the remaining budget at the overflow point is negative. -/
theorem C2_build_context_amended :
    (build_context
        [⟨List.replicate 1800 'a'⟩, ⟨List.replicate 500 'b'⟩, ⟨List.replicate 100 'c'⟩] 2000
      = List.replicate 1800 'a' ++ ctx_sep ++ List.replicate 196 'b' ++ ['.'])
  ∧ ∀ (retrieved : List Retrieved) (L : Int),
      ((build_context retrieved L).length : Int) ≤ max L 0 + max_text_length retrieved + 3 := by
  constructor
  · exact build_context_eval_a
  · intro retrieved L
    have h1 : ((build_context_loop L [] (retrieved.map Retrieved.text)).length : Int)
        ≤ max L 0 + max_text_length retrieved + 3 :=
      build_context_loop_length_le L (max_text_length retrieved)
        (retrieved.map Retrieved.text) [] (mem_le_max_text_length retrieved) (by simp)
    have h2 : (build_context retrieved L).length
        ≤ (build_context_loop L [] (retrieved.map Retrieved.text)).length :=
      py_strip_length_le _
    omega

/-- A conversation turn role (the data model restricts roles to these two). -/
inductive Role
  | user
  | assistant
deriving DecidableEq

/-- A conversation turn: a dict with `"role"` and `"content"` fields. -/
structure Turn where
  role : Role
  content : List Char
deriving DecidableEq

/-- The literal role strings stored in the history dicts. -/
def role_str : Role → List Char
  | Role.user => ("user").toList
  | Role.assistant => ("assistant").toList

/-- Python `s.capitalize()`: first character upper-cased, the rest lower-cased. -/
def py_capitalize (s : List Char) : List Char :=
  match s with
  | [] => []
  | c :: cs => Char.toUpper c :: cs.map Char.toLower

/-- conversation_manager.py line 41: the content of the most recent assistant
turn, defaulting to the empty string (`next((... for msg in reversed(...)), "")`). -/
def last_assistant_content (conversation_history : List Turn) : List Char :=
  match conversation_history.reverse.find? (fun m => m.role = Role.assistant) with
  | some m => m.content
  | none => []

/-- Python `l[-n:]` for `n > 0`: the last `n` elements (all of them if fewer). -/
def last_n (n : Nat) (l : List Turn) : List Turn := l.drop (l.length - n)

/-- The label prefixed to the prioritized assistant response (line 45). -/
def prev_resp_label : List Char := ("Assistant (Previous Response): ").toList

/-- The rendering of one recent turn, line 49 of conversation_manager.py:
the capitalized role, a colon and space, then the content. -/
def render_turn (m : Turn) : List Char :=
  py_capitalize (role_str m.role) ++ (": ").toList ++ m.content

/-- conversation_manager.py lines 40-49, the line list built by `_build_history`:
the most recent assistant response first (when non-empty), then the last four of
the last five turns, skipping assistant turns whose content equals that response
(the Python filter `role != "assistant" or content != last_response`,
equivalently the negated conjunction). -/
def build_history_lines (conversation_history : List Turn) : List (List Char) :=
  let last_response := last_assistant_content conversation_history
  let first_lines : List (List Char) :=
    if last_response ≠ [] then [prev_resp_label ++ last_response] else []
  let recent_messages := (last_n 5 conversation_history).filter
    (fun m => decide (¬ (m.role = Role.assistant ∧ m.content = last_response)))
  first_lines ++ (last_n 4 recent_messages).map render_turn

/-- Python `"\n".join(lines)`. -/
def join_nl : List (List Char) → List Char
  | [] => []
  | [l] => l
  | l :: ls => l ++ '\n' :: join_nl ls

/-- conversation_manager.py lines 34-55, `ConversationManager._build_history`:
empty history gives `""`; otherwise join the lines and sentence-safely truncate
when the joined text exceeds `max_length`. -/
def build_history (conversation_history : List Turn) (max_length : Int) : List Char :=
  match conversation_history with
  | [] => []
  | _ =>
    let history_text := join_nl (build_history_lines conversation_history)
    if max_length < (history_text.length : Int) then truncate_text history_text max_length
    else history_text

/-- Number of (possibly overlapping) occurrences of `pat` in `s`. -/
def count_occ (pat : List Char) : List Char → Nat
  | [] => 0
  | c :: cs => (if pat.isPrefixOf (c :: cs) then 1 else 0) + count_occ pat cs

/-- Claim C8 (counterexample): a history ending in an assistant turn with
content `"Hi."` preceded by a user turn with the same content shows `"Hi."`
twice — the duplicate filter only suppresses assistant turns, not user turns
with identical content. -/
theorem C8_counterexample :
    count_occ (("Hi.").toList)
      (build_history [⟨Role.user, ("Hi.").toList⟩, ⟨Role.assistant, ("Hi.").toList⟩] 1000)
      = 2 := by
  decide

lemma join_nl_cons_exists (a : List Char) (ls : List (List Char)) :
    ∃ rest, join_nl (a :: ls) = a ++ rest := by
  cases ls with
  | nil => exact ⟨[], (List.append_nil a).symm⟩
  | cons b bs => exact ⟨'\n' :: join_nl (b :: bs), rfl⟩

lemma render_turn_user (m : Turn) (h : m.role = Role.user) :
    render_turn m = 'U' :: (("ser: ").toList ++ m.content) := by
  rw [render_turn, h]
  rfl

lemma render_turn_assistant (m : Turn) (h : m.role = Role.assistant) :
    render_turn m = 'A' :: (("ssistant: ").toList ++ m.content) := by
  rw [render_turn, h]
  rfl

/-- Claim C8 (amended): when the most recent assistant turn has non-empty
content `X` and the joined history fits within `max_length`, `_build_history`
places the line `"Assistant (Previous Response): X"` first, and no later line
renders `X` again as an assistant line (`"Assistant: X"`): only assistant turns
duplicating `X` are filtered, so a user turn with the same content may still
repeat it, and truncation applies when the joined text exceeds `max_length`. -/
theorem C8_build_history_amended (hist : List Turn) (max_length : Int)
    (hne : hist ≠ [])
    (hX : last_assistant_content hist ≠ [])
    (hfit : ((join_nl (build_history_lines hist)).length : Int) ≤ max_length) :
    (∃ rest, build_history hist max_length
        = (prev_resp_label ++ last_assistant_content hist) ++ rest)
  ∧ ∀ l ∈ (build_history_lines hist).drop 1,
      l ≠ ("Assistant: ").toList ++ last_assistant_content hist := by
  have hlines : build_history_lines hist
      = (prev_resp_label ++ last_assistant_content hist)
        :: (last_n 4 ((last_n 5 hist).filter
            (fun m => decide (¬ (m.role = Role.assistant ∧
              m.content = last_assistant_content hist))))).map render_turn := by
    simp only [build_history_lines]
    rw [if_pos hX]
    rfl
  have hA : ("Assistant: ").toList ++ last_assistant_content hist
      = 'A' :: (("ssistant: ").toList ++ last_assistant_content hist) := rfl
  constructor
  · have hbh : build_history hist max_length = join_nl (build_history_lines hist) := by
      cases hist with
      | nil => exact absurd rfl hne
      | cons t ts =>
        show (if max_length < ((join_nl (build_history_lines (t :: ts))).length : Int)
            then truncate_text (join_nl (build_history_lines (t :: ts))) max_length
            else join_nl (build_history_lines (t :: ts))) = _
        rw [if_neg (not_lt.mpr hfit)]
    rw [hbh, hlines]
    exact join_nl_cons_exists _ _
  · intro l hl
    rw [hlines] at hl
    have hl2 : l ∈ (last_n 4 ((last_n 5 hist).filter
        (fun m => decide (¬ (m.role = Role.assistant ∧
          m.content = last_assistant_content hist))))).map render_turn := hl
    obtain ⟨m, hm, hrend⟩ := List.mem_map.mp hl2
    have hm2 : m ∈ (last_n 5 hist).filter
        (fun m => decide (¬ (m.role = Role.assistant ∧
          m.content = last_assistant_content hist))) :=
      List.mem_of_mem_drop hm
    have hpred2 : ¬ (m.role = Role.assistant ∧ m.content = last_assistant_content hist) :=
      of_decide_eq_true (List.mem_filter.mp hm2).2
    subst hrend
    cases hrole : m.role with
    | user =>
      rw [render_turn_user m hrole, hA]
      intro heq
      injection heq with h1 _
      exact absurd h1 (by decide)
    | assistant =>
      rw [render_turn_assistant m hrole, hA]
      intro heq
      injection heq with _ h2
      exact hpred2 ⟨hrole, List.append_cancel_left h2⟩

/-- Witness for C8: the amended theorem applied to the concrete history
`[user "Q.", assistant "A1."]` with `max_length = 1000`. -/
theorem C8_witness :
    ∃ rest, build_history [⟨Role.user, ("Q.").toList⟩, ⟨Role.assistant, ("A1.").toList⟩] 1000
      = (prev_resp_label ++
          last_assistant_content [⟨Role.user, ("Q.").toList⟩, ⟨Role.assistant, ("A1.").toList⟩])
        ++ rest :=
  (C8_build_history_amended [⟨Role.user, ("Q.").toList⟩, ⟨Role.assistant, ("A1.").toList⟩] 1000
    (by decide) (by decide) (by decide)).1

/-- Python exception values arising on the answer-generation path. -/
inductive PyExn
  | valueError (msg : List Char)
  | exn (msg : List Char)
  | retryError (inner : PyExn)
deriving DecidableEq

/-- The Python class name of an exception, as it appears in reprs. -/
def exn_type_name : PyExn → List Char
  | PyExn.valueError _ => ("ValueError").toList
  | PyExn.exn _ => ("Exception").toList
  | PyExn.retryError _ => ("RetryError").toList

/-- Python `str(e)`.  For the tenacity class `RetryError`, `str` shows the wrapped
future and the type name of the raised exception (as in
`RetryError[<Future at 0x7f0 state=finished raised ValueError>]`), not the
inner message; the hex address is modelled by a fixed placeholder, which cannot
affect the `"quota"` substring check performed on it (hex digits never spell
`quota`). -/
def exn_str : PyExn → List Char
  | PyExn.valueError m => m
  | PyExn.exn m => m
  | PyExn.retryError e =>
      ("RetryError[<Future at 0x7f0 state=finished raised ").toList
        ++ exn_type_name e ++ (">]").toList

/-- Substring test, Python `pat in s`. -/
def has_substr (pat : List Char) : List Char → Bool
  | [] => pat.isEmpty
  | c :: cs => pat.isPrefixOf (c :: cs) || has_substr pat cs

/-- Python `s.lower()`. -/
def to_lower_str (s : List Char) : List Char := s.map Char.toLower

/-- The `ValueError` message raised on an empty model response (line 66). -/
def empty_resp_msg : List Char := ("Empty response from Gemini API.").toList

/-- The quota `Exception` message raised inside `_generate_response` (line 71). -/
def quota_exc_msg : List Char :=
  ("Quota exceeded. Please try again later or upgrade your plan.").toList

/-- The fixed reply when no chunks were retrieved (line 80). -/
def not_available_msg : List Char :=
  ("The answer is not available in the provided books.").toList

/-- The fixed reply for the `except ValueError` branch (line 133). -/
def no_answer_msg : List Char :=
  ("No answer generated from the provided context. The API returned an empty response.").toList

/-- The fixed user-facing quota reply (line 136). -/
def quota_user_msg : List Char :=
  ("API quota exceeded. Please try again later or upgrade your plan.").toList

/-- conversation_manager.py lines 59-72, the body of one `_generate_response`
attempt.  `gen` is the model oracle: per attempt index and prompt it yields the
raw response text or the exception the provider raised.  An empty (stripped)
response raises `ValueError`; the `except` block catches anything raised inside
the `try` (including that `ValueError`) and re-raises it, substituting a quota
`Exception` when the string of the caught exception contains `"429"`. -/
def generate_response_attempt (gen : Nat → List Char → Except PyExn (List Char))
    (attempt : Nat) (prompt : List Char) : Except PyExn (List Char) :=
  let reraise : PyExn → Except PyExn (List Char) := fun e =>
    if has_substr (("429").toList) (exn_str e) then Except.error (PyExn.exn quota_exc_msg)
    else Except.error e
  match gen attempt prompt with
  | Except.ok raw =>
    let response_text := py_strip raw
    if response_text = [] then reraise (PyExn.valueError empty_resp_msg)
    else Except.ok response_text
  | Except.error e => reraise e

/-- The tenacity decorator `@retry(stop=stop_after_attempt(3), ...)` on
`_generate_response` (line 58): up to three attempts, every exception retried;
when the attempts are exhausted the last exception is wrapped in a `RetryError`
(the tenacity default of reraise set to False). -/
def tenacity_retry (gen : Nat → List Char → Except PyExn (List Char))
    (prompt : List Char) : Except PyExn (List Char) :=
  match generate_response_attempt gen 0 prompt with
  | Except.ok t => Except.ok t
  | Except.error _ =>
    match generate_response_attempt gen 1 prompt with
    | Except.ok t => Except.ok t
    | Except.error _ =>
      match generate_response_attempt gen 2 prompt with
      | Except.ok t => Except.ok t
      | Except.error e => Except.error (PyExn.retryError e)

/-- conversation_manager.py lines 85-103: the first prompt f-string. -/
def prompt_first (history_text context question : List Char) : List Char :=
  ("\n        You are a knowledgeable and concise assistant. Answer the question based on the provided context and conversation history.\n        - If the question is about the conversation history or your previous response, answer based on the conversation history.\n        - For questions about the books, try to provide a relevant answer based on the context, even if it\x27s not a direct match.\n        - Use clear, professional language and format your response in markdown where appropriate.\n        - If you cannot find any relevant information in the context or history, respond with: \"The answer is not available in the provided books.\"\n        - If unsure or partially confident, indicate your confidence level (e.g., \"Based on limited context...\").\n\n        **Conversation History**:\n        ").toList
    ++ history_text
    ++ ("\n\n        **Context from Books**:\n        ").toList
    ++ context
    ++ ("\n\n        **Question**:\n        ").toList
    ++ question
    ++ ("\n\n        **Answer**:\n        ").toList

/-- conversation_manager.py lines 109-126: the second (degraded) prompt
f-string, used after re-truncating the context; it drops the
confidence-hedging instruction line and is indented by 12 spaces. -/
def prompt_second (history_text context question : List Char) : List Char :=
  ("\n            You are a knowledgeable and concise assistant. Answer the question based on the provided context and conversation history.\n            - If the question is about the conversation history or your previous response, answer based on the conversation history.\n            - For questions about the books, try to provide a relevant answer based on the context, even if it\x27s not a direct match.\n            - Use clear, professional language and format your response in markdown where appropriate.\n            - If you cannot find any relevant information in the context or history, respond with: \"The answer is not available in the provided books.\"\n\n            **Conversation History**:\n            ").toList
    ++ history_text
    ++ ("\n\n            **Context from Books**:\n            ").toList
    ++ context
    ++ ("\n\n            **Question**:\n            ").toList
    ++ question
    ++ ("\n\n            **Answer**:\n            ").toList

/-- conversation_manager.py line 10: the token budget proxy. -/
def MAX_TOKENS : Nat := 4000

/-- conversation_manager.py lines 74-138, `ConversationManager.generate_answer`.
With no retrieved chunks the fixed unavailability message is returned before
any model interaction.  Otherwise the prompt is assembled; when
`len(prompt) * 0.25 > MAX_TOKENS` (exactly `len(prompt) > 4 * MAX_TOKENS`,
since `0.25` is an exact binary float) the context is re-truncated to 1000
characters and the second template is used.  The model call runs under the
tenacity retry wrapper; `except ValueError` yields the fixed empty-response
message, any other exception whose lower-cased string contains `"quota"` yields
the quota message, and anything else is re-raised as
`Exception("Failed to generate answer: ...")`, modelled as `Except.error`. -/
def generate_answer (gen : Nat → List Char → Except PyExn (List Char))
    (question : List Char) (retrieved_chunks : List Retrieved)
    (conversation_history : List Turn) : Except (List Char) (List Char) :=
  if retrieved_chunks = [] then Except.ok not_available_msg
  else
    let context := build_context retrieved_chunks 2000
    let history_text := build_history conversation_history 1000
    let prompt0 := prompt_first history_text context question
    let prompt :=
      if 4 * MAX_TOKENS < prompt0.length then
        prompt_second history_text (truncate_text context 1000) question
      else prompt0
    match tenacity_retry gen prompt with
    | Except.ok answer => Except.ok answer
    | Except.error (PyExn.valueError _) => Except.ok no_answer_msg
    | Except.error e =>
      if has_substr (("quota").toList) (to_lower_str (exn_str e)) then
        Except.ok quota_user_msg
      else Except.error (("Failed to generate answer: ").toList ++ exn_str e)

/-- Claim C4: for every model oracle, question and conversation history, with
zero retrieved chunks `generate_answer` returns exactly the fixed message
"The answer is not available in the provided books."; the equation holds for
an arbitrary oracle, so no model call can influence (or be required for) the
result. -/
theorem C4_generate_answer_no_chunks (gen : Nat → List Char → Except PyExn (List Char))
    (question : List Char) (conversation_history : List Turn) :
    generate_answer gen question [] conversation_history = Except.ok not_available_msg := rfl

/-- A model oracle that returns an empty-text response on every attempt. -/
def gen_empty : Nat → List Char → Except PyExn (List Char) := fun _ _ => Except.ok []

/-- Claim C6 (code bug): when the model succeeds with empty text on every
attempt, the `ValueError` raised inside `_generate_response` is retried by
tenacity and finally wrapped in a `RetryError`, which the `except ValueError`
branch of `generate_answer` does not match — so the call raises
`Exception("Failed to generate answer: RetryError[...]")` instead of returning
the fixed "No answer generated ..." message that the claim (and the dead
`except ValueError` branch) promises. -/
theorem C6_empty_response_code_bug :
    generate_answer gen_empty (("What is this?").toList) [⟨("B.").toList⟩] []
      = Except.error (("Failed to generate answer: ").toList
          ++ exn_str (PyExn.retryError (PyExn.valueError empty_resp_msg)))
  ∧ generate_answer gen_empty (("What is this?").toList) [⟨("B.").toList⟩] []
      ≠ Except.ok no_answer_msg := by
  have h1 : generate_answer gen_empty (("What is this?").toList) [⟨("B.").toList⟩] []
      = Except.error (("Failed to generate answer: ").toList
          ++ exn_str (PyExn.retryError (PyExn.valueError empty_resp_msg))) := rfl
  refine ⟨h1, ?_⟩
  rw [h1]
  intro h
  exact Except.noConfusion h

/-- The `PDFDocumentProcessor` state relevant to the claims: the credential
pool (doc_processor.py lines 25-31) and the stored configuration
(lines 32-36). -/
structure Processor where
  api_keys : List (List Char)
  current_api_key_index : Nat
  current_api_key : List Char
  chunk_size : Nat
  page_batch_size : Nat
  overlap : Nat
  max_image_size : Nat
deriving DecidableEq

/-- Python truthiness of an optional string (`None` and `""` are falsy). -/
def truthy_key : Option (List Char) → Bool
  | none => false
  | some s => !s.isEmpty

/-- doc_processor.py lines 21-36, `PDFDocumentProcessor.__init__` (the pure
part: key selection and stored configuration; `genai.configure` and model
construction are external side effects).  `[api_key] if api_key else
[env_1, env_2]`, then `[key for key in keys if key]`; an empty pool raises
`ValueError`. -/
def init_processor (api_key env_key_1 env_key_2 : Option (List Char))
    (chunk_size page_batch_size overlap max_image_size : Nat) :
    Except (List Char) Processor :=
  match (if truthy_key api_key then [api_key] else [env_key_1, env_key_2]).filterMap
      (fun o => if truthy_key o then o else none) with
  | [] => Except.error (("No valid Gemini API key provided via UI or .env").toList)
  | k :: ks =>
    Except.ok
      { api_keys := k :: ks
        current_api_key_index := 0
        current_api_key := k
        chunk_size := chunk_size
        page_batch_size := page_batch_size
        overlap := overlap
        max_image_size := max_image_size }

/-- doc_processor.py lines 199-205, `PDFDocumentProcessor._switch_api_key`:
advance the index by one modulo the pool size and re-read the current key
(indexing modelled with a default for the type to be total; the invariant
below shows the index is always in range). -/
def switch_api_key (p : Processor) : Processor :=
  { p with
    current_api_key_index := (p.current_api_key_index + 1) % p.api_keys.length
    current_api_key := p.api_keys.getD ((p.current_api_key_index + 1) % p.api_keys.length) [] }

/-- The key-pool invariant: a non-empty pool, an in-range index, and a current
key that is the pool entry at the index. -/
def key_inv (p : Processor) : Prop :=
  p.api_keys ≠ [] ∧ p.current_api_key_index < p.api_keys.length ∧
  p.current_api_key = p.api_keys.getD p.current_api_key_index []

lemma switch_iterate (k : Nat) : ∀ p : Processor,
    p.current_api_key_index < p.api_keys.length →
    ((switch_api_key^[k] p).api_keys = p.api_keys ∧
     (switch_api_key^[k] p).current_api_key_index
       = (p.current_api_key_index + k) % p.api_keys.length) := by
  induction k with
  | zero =>
    intro p hp
    exact ⟨rfl, (Nat.mod_eq_of_lt hp).symm⟩
  | succ n ih =>
    intro p hp
    have hlen : 0 < p.api_keys.length := lt_of_le_of_lt (Nat.zero_le _) hp
    have hkeys : (switch_api_key p).api_keys = p.api_keys := rfl
    have hidx : (switch_api_key p).current_api_key_index
        = (p.current_api_key_index + 1) % p.api_keys.length := rfl
    have hlt : (switch_api_key p).current_api_key_index < (switch_api_key p).api_keys.length := by
      rw [hidx, hkeys]
      exact Nat.mod_lt _ hlen
    obtain ⟨h1, h2⟩ := ih (switch_api_key p) hlt
    rw [Function.iterate_succ_apply]
    refine ⟨by rw [h1, hkeys], ?_⟩
    rw [h2, hidx, hkeys, Nat.mod_add_mod]
    congr 1
    omega

/-- Claim C10: after construction the invariant holds with index 0; a rotation
preserves the invariant, leaves the pool unchanged and advances the index by
exactly one modulo the pool size; and `len(api_keys)` rotations return to the
initial index. -/
theorem C10_key_pool_invariant :
    (∀ (a e1 e2 : Option (List Char)) (cs pbs ov mis : Nat) (p : Processor),
        init_processor a e1 e2 cs pbs ov mis = Except.ok p →
        key_inv p ∧ p.current_api_key_index = 0)
  ∧ (∀ p : Processor, key_inv p →
        key_inv (switch_api_key p)
        ∧ (switch_api_key p).api_keys = p.api_keys
        ∧ (switch_api_key p).current_api_key_index
            = (p.current_api_key_index + 1) % p.api_keys.length)
  ∧ (∀ p : Processor, key_inv p →
        (switch_api_key^[p.api_keys.length] p).current_api_key_index
          = p.current_api_key_index) := by
  refine ⟨?_, ?_, ?_⟩
  · intro a e1 e2 cs pbs ov mis p h
    unfold init_processor at h
    cases hk : (if truthy_key a then [a] else [e1, e2]).filterMap
        (fun o => if truthy_key o then o else none) with
    | nil =>
      rw [hk] at h
      exact Except.noConfusion h
    | cons k ks =>
      rw [hk] at h
      injection h with h
      subst h
      exact ⟨⟨List.cons_ne_nil _ _, Nat.succ_pos _, rfl⟩, rfl⟩
  · intro p hp
    obtain ⟨hne, hlt, _⟩ := hp
    have hlen : 0 < p.api_keys.length := List.length_pos.mpr hne
    refine ⟨⟨hne, ?_, rfl⟩, rfl, rfl⟩
    show (p.current_api_key_index + 1) % p.api_keys.length < p.api_keys.length
    exact Nat.mod_lt _ hlen
  · intro p hp
    obtain ⟨hne, hlt, _⟩ := hp
    obtain ⟨_, h2⟩ := switch_iterate p.api_keys.length p hlt
    rw [h2, Nat.add_mod_right]
    exact Nat.mod_eq_of_lt hlt

/-- A concrete processor with a two-key pool and the constructor default
configuration, used by witnesses and counterexamples below. -/
def p_ex : Processor :=
  { api_keys := [("k1").toList, ("k2").toList]
    current_api_key_index := 0
    current_api_key := ("k1").toList
    chunk_size := 1000
    page_batch_size := 50
    overlap := 200
    max_image_size := 5000000 }

/-- Witness for C10: the rotation part of the invariant theorem applied to the
concrete two-key processor. -/
theorem C10_witness :
    key_inv (switch_api_key p_ex)
    ∧ (switch_api_key p_ex).api_keys = p_ex.api_keys
    ∧ (switch_api_key p_ex).current_api_key_index
        = (p_ex.current_api_key_index + 1) % p_ex.api_keys.length :=
  C10_key_pool_invariant.2.1 p_ex ⟨by decide, by decide, by decide⟩

/-- A chunk dict as produced by `_create_text_chunks`: text plus metadata;
the embedding is attached later by `generate_embeddings`.  Embedding vectors
are modelled as opaque values (their numeric type plays no role in the code
under verification). -/
structure Chunk where
  text : List Char
  source : List Char
  pages : List Nat
  chunk_type : List Char
  embedding : Option (List Int) := none
deriving DecidableEq

/-- The chunk dict literal of doc_processor.py lines 148-151/155-158. -/
def mk_chunk (text source : List Char) (pages : List Nat) (chunk_type : List Char) : Chunk :=
  { text := text, source := source, pages := pages, chunk_type := chunk_type }

/-- One iteration of the sentence-packing loop (doc_processor.py lines
143-152): a sentence that still fits (`len(current_chunk) + len(sentence) + 1
<= chunk_size`) is appended with a trailing space; otherwise the current chunk
is emitted (if its stripped text is non-empty) and the sentence starts a new
chunk. -/
def chunk_step (chunk_size : Nat) (source : List Char) (pages : List Nat)
    (chunk_type : List Char) (st : List Chunk × List Char) (sentence : List Char) :
    List Chunk × List Char :=
  if st.2.length + sentence.length + 1 ≤ chunk_size then
    (st.1, st.2 ++ sentence ++ [' '])
  else if py_strip st.2 = [] then (st.1, sentence ++ [' '])
  else (st.1 ++ [mk_chunk (py_strip st.2) source pages chunk_type], sentence ++ [' '])

/-- doc_processor.py lines 137-160, `PDFDocumentProcessor._create_text_chunks`.
The NLTK call `nltk.sent_tokenize(text)` is external, so the function is
modelled over the sentence list it produces.  After the loop the final
non-empty chunk remainder is emitted. -/
def create_text_chunks (p : Processor) (sentences : List (List Char))
    (source : List Char) (pages : List Nat) (chunk_type : List Char) : List Chunk :=
  let st := sentences.foldl (chunk_step p.chunk_size source pages chunk_type) ([], [])
  if py_strip st.2 = [] then st.1
  else st.1 ++ [mk_chunk (py_strip st.2) source pages chunk_type]

/-- The non-whitespace characters of a string — "modulo whitespace" equality
is equality of these. -/
def f_nw (s : List Char) : List Char := s.filter (fun c => !is_space c)

lemma f_nw_append (a b : List Char) : f_nw (a ++ b) = f_nw a ++ f_nw b := by
  simp only [f_nw]
  exact List.filter_append _ _

lemma f_nw_space : f_nw [' '] = [] := rfl

lemma f_nw_dropWhile (l : List Char) : f_nw (l.dropWhile is_space) = f_nw l := by
  induction l with
  | nil => rfl
  | cons c cs ih =>
    by_cases h : is_space c
    · rw [List.dropWhile_cons_of_pos h, ih]
      show f_nw cs = List.filter _ (c :: cs)
      rw [List.filter_cons_of_neg (by simp [h])]
      rfl
    · rw [List.dropWhile_cons_of_neg h]

lemma f_nw_reverse (l : List Char) : f_nw l.reverse = (f_nw l).reverse :=
  List.filter_reverse _ _

lemma f_nw_py_strip (s : List Char) : f_nw (py_strip s) = f_nw s := by
  unfold py_strip
  rw [f_nw_reverse, f_nw_dropWhile, f_nw_reverse, List.reverse_reverse, f_nw_dropWhile]

lemma f_nw_of_py_strip_nil (s : List Char) (h : py_strip s = []) : f_nw s = [] := by
  rw [← f_nw_py_strip, h]
  rfl

lemma py_strip_append_space (s : List Char) : py_strip (s ++ [' ']) = py_strip s := by
  unfold py_strip
  rw [List.dropWhile_append]
  by_cases h : (s.dropWhile is_space).isEmpty
  · rw [if_pos h]
    rw [List.isEmpty_iff] at h
    rw [h]
    rfl
  · rw [if_neg h]
    rw [List.reverse_append, List.reverse_singleton, List.singleton_append,
      List.dropWhile_cons_of_pos (show is_space ' ' = true from by decide)]

/-- The per-chunk property of claim C3, relative to chunk size `n` and the
ambient sentence list `S`. -/
def chunk_ok (n : Nat) (S : List (List Char)) (c : Chunk) : Prop :=
  c.text.length ≤ n ∨ ∃ s ∈ S, c.text = py_strip s ∧ n < s.length

/-- Loop invariant for the pending buffer `current_chunk`: empty, within the
size bound, or a single (possibly oversize) sentence plus the trailing space. -/
def cc_ok (n : Nat) (S : List (List Char)) (cc : List Char) : Prop :=
  cc = [] ∨ cc.length ≤ n ∨ ∃ s ∈ S, cc = s ++ [' ']

lemma emit_chunk_ok (n : Nat) (S : List (List Char)) (cc : List Char)
    (h : cc_ok n S cc) (hne : ¬ py_strip cc = []) :
    (py_strip cc).length ≤ n ∨ ∃ s ∈ S, py_strip cc = py_strip s ∧ n < s.length := by
  rcases h with h | h | ⟨s, hs, rfl⟩
  · subst h
    exact absurd rfl hne
  · exact Or.inl (le_trans (py_strip_length_le cc) h)
  · by_cases hlen : (py_strip (s ++ [' '])).length ≤ n
    · exact Or.inl hlen
    · refine Or.inr ⟨s, hs, py_strip_append_space s, ?_⟩
      have h2 : (py_strip (s ++ [' '])).length ≤ s.length := by
        rw [py_strip_append_space]
        exact py_strip_length_le s
      omega


lemma chunk_step_fit (n : Nat) (src : List Char) (pg : List Nat) (ty : List Char)
    (chunks : List Chunk) (cc s : List Char) (hfit : cc.length + s.length + 1 ≤ n) :
    chunk_step n src pg ty (chunks, cc) s = (chunks, cc ++ s ++ [' ']) := by
  unfold chunk_step
  rw [if_pos hfit]

lemma chunk_step_drop (n : Nat) (src : List Char) (pg : List Nat) (ty : List Char)
    (chunks : List Chunk) (cc s : List Char) (hfit : ¬ cc.length + s.length + 1 ≤ n)
    (hnil : py_strip cc = []) :
    chunk_step n src pg ty (chunks, cc) s = (chunks, s ++ [' ']) := by
  unfold chunk_step
  rw [if_neg hfit, if_pos hnil]

lemma chunk_step_emit (n : Nat) (src : List Char) (pg : List Nat) (ty : List Char)
    (chunks : List Chunk) (cc s : List Char) (hfit : ¬ cc.length + s.length + 1 ≤ n)
    (hnil : ¬ py_strip cc = []) :
    chunk_step n src pg ty (chunks, cc) s
      = (chunks ++ [mk_chunk (py_strip cc) src pg ty], s ++ [' ']) := by
  unfold chunk_step
  rw [if_neg hfit, if_neg hnil]

lemma chunk_loop_spec (n : Nat) (src : List Char) (pg : List Nat) (ty : List Char)
    (S : List (List Char)) :
    ∀ (sents : List (List Char)) (chunks : List Chunk) (cc : List Char),
      (∀ s ∈ sents, s ∈ S) →
      (∀ c ∈ chunks, chunk_ok n S c) →
      cc_ok n S cc →
      ((∀ c ∈ (sents.foldl (chunk_step n src pg ty) (chunks, cc)).1, chunk_ok n S c)
       ∧ cc_ok n S (sents.foldl (chunk_step n src pg ty) (chunks, cc)).2
       ∧ f_nw (((sents.foldl (chunk_step n src pg ty) (chunks, cc)).1.map Chunk.text).flatten)
           ++ f_nw ((sents.foldl (chunk_step n src pg ty) (chunks, cc)).2)
         = f_nw ((chunks.map Chunk.text).flatten) ++ f_nw cc ++ f_nw sents.flatten) := by
  intro sents
  induction sents with
  | nil =>
    intro chunks cc _ hchunks hcc
    refine ⟨hchunks, hcc, ?_⟩
    simp [f_nw]
  | cons s rest ih =>
    intro chunks cc hmem hchunks hcc
    have hsS : s ∈ S := hmem s (by simp)
    have hrest : ∀ t ∈ rest, t ∈ S := fun t ht => hmem t (by simp [ht])
    rw [List.foldl_cons]
    by_cases hfit : cc.length + s.length + 1 ≤ n
    · -- the sentence fits: extend the buffer
      rw [chunk_step_fit n src pg ty chunks cc s hfit]
      obtain ⟨ih1, ih2, ih3⟩ := ih chunks (cc ++ s ++ [' ']) hrest hchunks
        (Or.inr (Or.inl (by
          rw [List.append_assoc, List.length_append, List.length_append]
          simpa using hfit)))
      refine ⟨ih1, ih2, ?_⟩
      rw [ih3]
      simp [f_nw_append, f_nw_space, List.append_assoc]
    · by_cases hnil : py_strip cc = []
      · -- overflow, but the pending buffer strips to empty: drop it
        rw [chunk_step_drop n src pg ty chunks cc s hfit hnil]
        obtain ⟨ih1, ih2, ih3⟩ := ih chunks (s ++ [' ']) hrest hchunks
          (Or.inr (Or.inr ⟨s, hsS, rfl⟩))
        refine ⟨ih1, ih2, ?_⟩
        rw [ih3, f_nw_of_py_strip_nil cc hnil]
        simp [f_nw_append, f_nw_space, List.append_assoc]
      · -- overflow: emit the stripped buffer as a chunk
        rw [chunk_step_emit n src pg ty chunks cc s hfit hnil]
        have hnew : ∀ c ∈ chunks ++ [mk_chunk (py_strip cc) src pg ty], chunk_ok n S c := by
          intro c hc
          rcases List.mem_append.mp hc with hc | hc
          · exact hchunks c hc
          · rw [List.mem_singleton.mp hc]
            exact emit_chunk_ok n S cc hcc hnil
        obtain ⟨ih1, ih2, ih3⟩ := ih (chunks ++ [mk_chunk (py_strip cc) src pg ty])
          (s ++ [' ']) hrest hnew (Or.inr (Or.inr ⟨s, hsS, rfl⟩))
        refine ⟨ih1, ih2, ?_⟩
        rw [ih3]
        simp only [List.map_append, List.map_cons, List.map_nil, List.flatten_append,
          List.flatten_cons, List.flatten_nil, f_nw_append, f_nw_space, List.append_nil,
          List.append_assoc, mk_chunk]
        rw [f_nw_py_strip]

/-- Claim C3: for every chunk size, every sentence list (the output of the
external tokenizer) and every metadata, each produced chunk either has text of
length at most `chunk_size` or is the (stripped) text of a single sentence
longer than `chunk_size` kept whole; and the concatenation of all chunk texts
equals the concatenation of the sentences modulo whitespace. -/
theorem C3_create_text_chunks_spec (p : Processor) (sentences : List (List Char))
    (source : List Char) (pages : List Nat) (chunk_type : List Char) :
    (∀ c ∈ create_text_chunks p sentences source pages chunk_type,
        c.text.length ≤ p.chunk_size ∨
        ∃ s ∈ sentences, c.text = py_strip s ∧ p.chunk_size < s.length)
  ∧ f_nw (((create_text_chunks p sentences source pages chunk_type).map Chunk.text).flatten)
      = f_nw sentences.flatten := by
  obtain ⟨h1, h2, h3⟩ := chunk_loop_spec p.chunk_size source pages chunk_type sentences
    sentences [] [] (fun s hs => hs) (by simp) (Or.inl rfl)
  simp only [create_text_chunks]
  split
  · -- the final buffer strips to empty and is dropped
    rename_i hnil
    refine ⟨h1, ?_⟩
    rw [f_nw_of_py_strip_nil _ hnil] at h3
    simpa [f_nw] using h3
  · -- the final buffer is emitted
    rename_i hnil
    constructor
    · intro c hc
      rcases List.mem_append.mp hc with hc | hc
      · exact h1 c hc
      · rw [List.mem_singleton.mp hc]
        exact emit_chunk_ok p.chunk_size sentences _ h2 hnil
    · simp only [List.map_append, List.map_cons, List.map_nil, List.flatten_append,
        List.flatten_cons, List.flatten_nil, f_nw_append, List.append_nil, mk_chunk]
      rw [f_nw_py_strip]
      simpa [f_nw] using h3

/-- Witness for C3: the theorem applied to the single-sentence input
`["Hello world."]` with the default processor; the produced chunk is that
sentence and satisfies the size bound. -/
theorem C3_witness :
    (mk_chunk (("Hello world.").toList) (("b.pdf").toList) [1] (("text").toList)).text.length
        ≤ p_ex.chunk_size
    ∨ ∃ s ∈ [("Hello world.").toList],
        (mk_chunk (("Hello world.").toList) (("b.pdf").toList) [1] (("text").toList)).text
          = py_strip s ∧ p_ex.chunk_size < s.length :=
  (C3_create_text_chunks_spec p_ex [("Hello world.").toList] (("b.pdf").toList) [1]
    (("text").toList)).1
    (mk_chunk (("Hello world.").toList) (("b.pdf").toList) [1] (("text").toList))
    (by decide)

/-- The default processor with `overlap` set to 0 instead of 200. -/
def p_ex0 : Processor := { p_ex with overlap := 0 }

set_option maxRecDepth 16000 in
/-- Claim C9 (counterexample): with the default configuration (`chunk_size`
1000, `overlap` 200), two 601-character sentences produce two chunks, and the
last 200 characters of the first chunk differ from the first 200 characters of
the second — consecutive chunks share no overlap region. -/
theorem C9_counterexample :
    create_text_chunks p_ex
        [List.replicate 600 'a' ++ ['.'], List.replicate 600 'b' ++ ['.']]
        (("b.pdf").toList) [1] (("text").toList)
      = [mk_chunk (List.replicate 600 'a' ++ ['.']) (("b.pdf").toList) [1] (("text").toList),
         mk_chunk (List.replicate 600 'b' ++ ['.']) (("b.pdf").toList) [1] (("text").toList)]
  ∧ p_ex.overlap = 200
  ∧ (List.replicate 600 'a' ++ ['.']).drop
        ((List.replicate 600 'a' ++ ['.']).length - p_ex.overlap)
      ≠ (List.replicate 600 'b' ++ ['.']).take p_ex.overlap := by
  refine ⟨by decide, by decide, by decide⟩

/-- Claim C9 (amended): `_create_text_chunks` ignores the stored `overlap`
parameter entirely — its output depends only on `chunk_size`, so two processors
agreeing on `chunk_size` produce identical chunks whatever their `overlap`
values; chunks are disjoint sentence runs with no shared characters. -/
theorem C9_overlap_unused (p q : Processor) (h : p.chunk_size = q.chunk_size)
    (sentences : List (List Char)) (source : List Char) (pages : List Nat)
    (chunk_type : List Char) :
    create_text_chunks p sentences source pages chunk_type
      = create_text_chunks q sentences source pages chunk_type := by
  unfold create_text_chunks
  rw [h]

/-- Witness for C9: the amended theorem applied to the default processor and
its overlap-0 variant. -/
theorem C9_witness :
    create_text_chunks p_ex [("Hi.").toList] (("b.pdf").toList) [1] (("text").toList)
      = create_text_chunks p_ex0 [("Hi.").toList] (("b.pdf").toList) [1] (("text").toList) :=
  C9_overlap_unused p_ex p_ex0 rfl [("Hi.").toList] (("b.pdf").toList) [1] (("text").toList)

/-- The outcome of the single `embed_documents` provider call. -/
inductive EmbedResult
  | ok (embeddings : List (List Int))
  | googleAPIError (msg : List Char)
  | otherError (msg : List Char)
deriving DecidableEq

/-- The in-place zip mutation of doc_processor.py lines 212-213 followed by
`return chunks`: chunks paired by `zip` receive their embedding, the rest are
returned unchanged.  When the provider honours its contract (one vector per
input text) that is every chunk. -/
def attach_embeddings : List Chunk → List (List Int) → List Chunk
  | [], _ => []
  | cs, [] => cs
  | c :: cs, e :: es => { c with embedding := some e } :: attach_embeddings cs es

/-- doc_processor.py lines 207-229, `generate_embeddings`, with the outcome of the
provider call passed as a parameter.  A `GoogleAPIError` whose string contains
"Quota exceeded" rotates the key; "503"/"Timeout" and all remaining errors do
not; every error path returns the empty list. -/
def generate_embeddings (p : Processor) (chunks : List Chunk) (result : EmbedResult) :
    Processor × List Chunk :=
  match result with
  | EmbedResult.ok embeddings => (p, attach_embeddings chunks embeddings)
  | EmbedResult.googleAPIError msg =>
    if has_substr (("Quota exceeded").toList) msg then (switch_api_key p, [])
    else if has_substr (("503").toList) msg || has_substr (("Timeout").toList) msg then (p, [])
    else (p, [])
  | EmbedResult.otherError _ => (p, [])

lemma attach_embeddings_full : ∀ (chunks : List Chunk) (embeddings : List (List Int)),
    embeddings.length = chunks.length →
    ((attach_embeddings chunks embeddings).map Chunk.text = chunks.map Chunk.text
     ∧ ∀ c ∈ attach_embeddings chunks embeddings, c.embedding ≠ none) := by
  intro chunks
  induction chunks with
  | nil =>
    intro e _
    constructor
    · cases e <;> rfl
    · intro c hc
      cases e <;> simp [attach_embeddings] at hc
  | cons c cs ih =>
    intro e h
    cases e with
    | nil => simp at h
    | cons e0 es =>
      simp only [List.length_cons] at h
      obtain ⟨ih1, ih2⟩ := ih es (by omega)
      constructor
      · show Chunk.text _ :: (attach_embeddings cs es).map Chunk.text = _
        rw [ih1]
        rfl
      · intro d hd
        rcases List.mem_cons.mp hd with hd | hd
        · subst hd
          simp
        · exact ih2 d hd

/-- Claim C5: every error outcome of the embedding call (quota, 503/timeout,
other API error, unexpected exception) makes `generate_embeddings` return the
empty list — never a partial list; on success, with the provider honouring
one-vector-per-text, the returned list is the full chunk list (texts unchanged)
and every chunk carries an embedding. -/
theorem C5_generate_embeddings_all_or_nothing (p : Processor) (chunks : List Chunk) :
    (∀ msg, (generate_embeddings p chunks (EmbedResult.googleAPIError msg)).2 = []
          ∧ (generate_embeddings p chunks (EmbedResult.otherError msg)).2 = [])
  ∧ (∀ embeddings : List (List Int), embeddings.length = chunks.length →
      ((generate_embeddings p chunks (EmbedResult.ok embeddings)).2.map Chunk.text
          = chunks.map Chunk.text
       ∧ ∀ c ∈ (generate_embeddings p chunks (EmbedResult.ok embeddings)).2,
           c.embedding ≠ none)) := by
  constructor
  · intro msg
    refine ⟨?_, rfl⟩
    show (if has_substr (("Quota exceeded").toList) msg
        then (switch_api_key p, ([] : List Chunk))
        else if has_substr (("503").toList) msg || has_substr (("Timeout").toList) msg
        then (p, []) else (p, [])).2 = []
    split
    · rfl
    · split
      · rfl
      · rfl
  · intro embeddings h
    exact attach_embeddings_full chunks embeddings h

/-- Witness for C5: the success half of the theorem at a one-chunk, one-vector
input. -/
theorem C5_witness :
    (generate_embeddings p_ex [mk_chunk (("T.").toList) (("b.pdf").toList) [1] (("text").toList)]
        (EmbedResult.ok [[1]])).2.map Chunk.text
      = [mk_chunk (("T.").toList) (("b.pdf").toList) [1] (("text").toList)].map Chunk.text :=
  ((C5_generate_embeddings_all_or_nothing p_ex
      [mk_chunk (("T.").toList) (("b.pdf").toList) [1] (("text").toList)]).2 [[1]] rfl).1

/-- The outcome of the vision call (or the surrounding decode) for one image:
the extracted text, or the exception raised. -/
inductive VisionOutcome
  | ok (text : List Char)
  | raised (msg : List Char)
deriving DecidableEq

/-- One entry of `image_data` with its oracle outcome: the page the image sits
on, its decoded byte size, and what the guarded vision call does for it. -/
structure ImageItem where
  page_num : Nat
  byte_size : Nat
  outcome : VisionOutcome
deriving DecidableEq

/-- The text handed to the chunker for an image (doc_processor.py line 185). -/
def image_text (page_num : Nat) (extracted : List Char) : List Char :=
  ("[Image Text from Page ").toList ++ Nat.toDigits 10 (page_num + 1)
    ++ ("]:\n").toList ++ extracted

/-- The chunks a single image contributes: none when it is oversized, raises,
or yields only whitespace; otherwise the chunks of its tagged text (`tok` is
the external sentence tokenizer). -/
def image_chunks_of (tok : List Char → List (List Char)) (p : Processor)
    (source : List Char) (img : ImageItem) : List Chunk :=
  if p.max_image_size < img.byte_size then []
  else
    match img.outcome with
    | VisionOutcome.ok extracted =>
      if py_strip extracted = [] then []
      else create_text_chunks p (tok (image_text img.page_num extracted)) source
        [img.page_num + 1] (("image").toList)
    | VisionOutcome.raised _ => []

/-- One iteration of the `process_images` loop (doc_processor.py lines
168-194): oversized images are skipped with a warning; a successful call with
non-blank text is chunked and collected; an exception is logged and, exactly
when its string contains `"429"`, the key pool rotates; the loop always
continues with the next image. -/
def process_images_step (tok : List Char → List (List Char)) (source : List Char)
    (st : Processor × List Chunk) (img : ImageItem) : Processor × List Chunk :=
  if st.1.max_image_size < img.byte_size then st
  else
    match img.outcome with
    | VisionOutcome.ok extracted =>
      if py_strip extracted = [] then st
      else (st.1, st.2 ++ create_text_chunks st.1 (tok (image_text img.page_num extracted))
        source [img.page_num + 1] (("image").toList))
    | VisionOutcome.raised msg =>
      if has_substr (("429").toList) msg then (switch_api_key st.1, st.2) else st

/-- doc_processor.py lines 163-197, `PDFDocumentProcessor.process_images`. -/
def process_images (tok : List Char → List (List Char)) (p : Processor)
    (source : List Char) (images : List ImageItem) : Processor × List Chunk :=
  images.foldl (process_images_step tok source) (p, [])

/-- The images that trigger a key rotation: within the size limit and raising
an error whose string contains `"429"`. -/
def count_429 (max_size : Nat) (images : List ImageItem) : Nat :=
  images.countP (fun img =>
    decide (img.byte_size ≤ max_size) &&
      match img.outcome with
      | VisionOutcome.raised msg => has_substr (("429").toList) msg
      | VisionOutcome.ok _ => false)

lemma image_chunks_of_config (tok : List Char → List (List Char)) (source : List Char)
    (img : ImageItem) (p q : Processor)
    (h1 : p.chunk_size = q.chunk_size) (h2 : p.max_image_size = q.max_image_size) :
    image_chunks_of tok p source img = image_chunks_of tok q source img := by
  unfold image_chunks_of create_text_chunks
  rw [h1, h2]

lemma process_images_loop (tok : List Char → List (List Char)) (source : List Char) :
    ∀ (images : List ImageItem) (p : Processor) (acc : List Chunk),
      images.foldl (process_images_step tok source) (p, acc)
        = (switch_api_key^[count_429 p.max_image_size images] p,
           acc ++ ((images.map (image_chunks_of tok p source)).flatten)) := by
  intro images
  induction images with
  | nil =>
    intro p acc
    simp [count_429]
  | cons img rest ih =>
    intro p acc
    rw [List.foldl_cons]
    by_cases hsize : p.max_image_size < img.byte_size
    · -- oversized image: skipped, no rotation, no chunks
      have hnle : ¬ (img.byte_size ≤ p.max_image_size) := by omega
      have hstep : process_images_step tok source (p, acc) img = (p, acc) := by
        unfold process_images_step
        rw [if_pos hsize]
      have hcount : count_429 p.max_image_size (img :: rest)
          = count_429 p.max_image_size rest := by
        simp [count_429, List.countP_cons, decide_eq_false hnle]
      have hchunks : image_chunks_of tok p source img = [] := by
        unfold image_chunks_of
        rw [if_pos hsize]
      rw [hstep, ih p acc, hcount]
      simp [hchunks]
    · cases hout : img.outcome with
      | ok extracted =>
        have hcount : count_429 p.max_image_size (img :: rest)
            = count_429 p.max_image_size rest := by
          simp [count_429, List.countP_cons, hout]
        by_cases hb : py_strip extracted = []
        · have hstep : process_images_step tok source (p, acc) img = (p, acc) := by
            simp [process_images_step, hsize, hout, hb]
          have hchunks : image_chunks_of tok p source img = [] := by
            simp [image_chunks_of, hsize, hout, hb]
          rw [hstep, ih p acc, hcount]
          simp [hchunks]
        · have hstep : process_images_step tok source (p, acc) img
              = (p, acc ++ create_text_chunks p (tok (image_text img.page_num extracted))
                  source [img.page_num + 1] (("image").toList)) := by
            simp [process_images_step, hsize, hout, hb]
          have hchunks : image_chunks_of tok p source img
              = create_text_chunks p (tok (image_text img.page_num extracted))
                  source [img.page_num + 1] (("image").toList) := by
            simp [image_chunks_of, hsize, hout, hb]
          rw [hstep, ih p _, hcount]
          simp [hchunks, List.append_assoc]
      | raised msg =>
        have hle : img.byte_size ≤ p.max_image_size := Nat.not_lt.mp hsize
        by_cases h429 : has_substr (("429").toList) msg = true
        · have h429e : has_substr ['4', '2', '9'] msg = true := h429
          have hstep : process_images_step tok source (p, acc) img
              = (switch_api_key p, acc) := by
            simp [process_images_step, hsize, hout, h429e]
          have hcount : count_429 p.max_image_size (img :: rest)
              = count_429 p.max_image_size rest + 1 := by
            simp [count_429, List.countP_cons, hout, h429e, decide_eq_true hle]
          have hchunks : image_chunks_of tok p source img = [] := by
            unfold image_chunks_of
            rw [if_neg hsize, hout]
          have hmap : rest.map (image_chunks_of tok (switch_api_key p) source)
              = rest.map (image_chunks_of tok p source) :=
            List.map_congr_left (fun i _ => image_chunks_of_config tok source i
              (switch_api_key p) p rfl rfl)
          rw [hstep, ih (switch_api_key p) acc,
            show (switch_api_key p).max_image_size = p.max_image_size from rfl,
            hmap, hcount, Function.iterate_succ_apply]
          simp [hchunks]
        · have h429f : has_substr ['4', '2', '9'] msg = false := by
            rwa [Bool.not_eq_true] at h429
          have hstep : process_images_step tok source (p, acc) img = (p, acc) := by
            simp [process_images_step, hsize, hout, h429f]
          have hcount : count_429 p.max_image_size (img :: rest)
              = count_429 p.max_image_size rest := by
            simp [count_429, List.countP_cons, hout, h429f]
          have hchunks : image_chunks_of tok p source img = [] := by
            unfold image_chunks_of
            rw [if_neg hsize, hout]
          rw [hstep, ih p acc, hcount]
          simp [hchunks]

/-- Claim C7 (amended): in `process_images` the key pool rotates exactly for
the images whose call raises an exception whose string contains `"429"` (an
error merely mentioning quota does not rotate), the final key index being the
initial one advanced by that count; and the collected chunks are the
concatenation of the per-image contributions — an exception on one image
contributes nothing but never prevents the remaining images from being
processed. -/
theorem C7_process_images_amended (tok : List Char → List (List Char)) (p : Processor)
    (source : List Char) (images : List ImageItem) :
    (process_images tok p source images).1
      = switch_api_key^[count_429 p.max_image_size images] p
  ∧ (process_images tok p source images).2
      = (images.map (image_chunks_of tok p source)).flatten := by
  unfold process_images
  rw [process_images_loop tok source images p []]
  exact ⟨rfl, by simp⟩

/-- Claim C7 (counterexample): an image whose vision call raises an error whose
message contains "quota" but not "429" leaves the two-key pool unrotated — the
code checks only for the substring "429", not for quota-class errors in
general. -/
theorem C7_counterexample :
    (process_images (fun _ => []) p_ex (("b.pdf").toList)
        [⟨0, 100, VisionOutcome.raised (("quota exhausted for key").toList)⟩]).1 = p_ex
  ∧ p_ex.api_keys.length = 2 ∧ p_ex.current_api_key_index = 0 := by
  refine ⟨by decide, by decide, by decide⟩
